import Mathlib

/- Shallow embedding of the data-fetching core of the daily_stock_analysis
   repository: the sliding-window RateLimiter, the symbol-normalization layer,
   the error classification and retry pipeline, the watchlist-group lookup and
   the realtime-quote batching of src/data_provider/longbridge_fetcher.py, and
   the sector scraper with its daily cache of src/data_provider/chrome_fetcher.py.

   Python strings are modelled as lists of Unicode code points (List Nat),
   monetary values as rationals, instants of real time as rationals. -/

/-! ## Code-point strings (Python str as a list of Unicode code points) -/

/-- Convert a Lean string literal to the code-point model. -/
def str2cp (s : String) : List Nat :=
  s.toList.map Char.toNat

/-- Whitespace characters removed by Python str.strip (ASCII subset). -/
def isWSc (c : Nat) : Bool :=
  decide (c = 32 ∨ c = 9 ∨ c = 10 ∨ c = 13 ∨ c = 11 ∨ c = 12)

/-- ASCII lowercase letter. -/
def isLowerc (c : Nat) : Bool :=
  decide (97 ≤ c ∧ c ≤ 122)

/-- ASCII uppercase letter. -/
def isUpperc (c : Nat) : Bool :=
  decide (65 ≤ c ∧ c ≤ 90)

/-- Python str.upper on one character (ASCII range, as used on stock codes). -/
def toUpperc (c : Nat) : Nat :=
  if isLowerc c then c - 32 else c

/-- Python str.lower on one character (ASCII range, as used on error messages). -/
def toLowerc (c : Nat) : Nat :=
  if isUpperc c then c + 32 else c

/-- ASCII digit, the code points accepted by str.isdigit for these codes. -/
def isDigitc (c : Nat) : Bool :=
  decide (48 ≤ c ∧ c ≤ 57)

/-- Python str.strip: drop whitespace from both ends. -/
def pyStrip (s : List Nat) : List Nat :=
  ((s.dropWhile isWSc).reverse.dropWhile isWSc).reverse

/-- Python str.upper. -/
def pyUpper (s : List Nat) : List Nat := s.map toUpperc

/-- Python str.lower. -/
def pyLower (s : List Nat) : List Nat := s.map toLowerc

/-- Python str.isdigit: nonempty and all digits. -/
def pyIsDigit (s : List Nat) : Bool := !s.isEmpty && s.all isDigitc

/-- Python str.startswith with a tuple of alternatives. -/
def startsWithAny (s : List Nat) (ps : List (List Nat)) : Bool :=
  ps.any (fun p => p.isPrefixOf s)

/-- Python `kw in msg`: kw occurs as a contiguous substring of msg. -/
def isSubstr (k msg : List Nat) : Bool :=
  (List.range (msg.length + 1)).any (fun i => k.isPrefixOf (msg.drop i))

/-- Python `any(kw in msg for kw in kws)`: substring containment. -/
def containsAnyKW (msg : List Nat) (kws : List (List Nat)) : Bool :=
  kws.any (fun k => isSubstr k msg)

/-! ## Symbol normalization: LongbridgeFetcher._convert_stock_code
    (src/data_provider/longbridge_fetcher.py lines 215-254) -/

/-- LongbridgeFetcher._convert_stock_code: `code = stock_code.strip().upper()`;
    return as-is when it contains a dot; otherwise classify by prefix when the
    code is purely numeric (600/601/603/688 to .SH, 000/002/300 to .SZ, any
    other number to .HK) and default alphabetic codes to .US. -/
def convertStockCode (s : List Nat) : List Nat :=
  let code := pyUpper (pyStrip s)
  if 46 ∈ code then code
  else if pyIsDigit code then
    if startsWithAny code [str2cp "600", str2cp "601", str2cp "603", str2cp "688"] then
      code ++ str2cp ".SH"
    else if startsWithAny code [str2cp "000", str2cp "002", str2cp "300"] then
      code ++ str2cp ".SZ"
    else
      code ++ str2cp ".HK"
  else
    code ++ str2cp ".US"

/-- The normalization rules as the spec words them, amended only to make the
    returned value the stripped-and-uppercased form of the input (the source
    normalizes case and whitespace before every rule, so rule 1 cannot return
    the input byte-for-byte) and to restrict the .SZ rule to purely numeric
    codes. Written from the spec for the refinement comparison of claim C6. -/
def specConvertStockCode (s : List Nat) : List Nat :=
  let c := pyUpper (pyStrip s)
  if 46 ∈ c then c
  else if pyIsDigit c && startsWithAny c [str2cp "600", str2cp "601", str2cp "603", str2cp "688"] then
    c ++ str2cp ".SH"
  else if pyIsDigit c && startsWithAny c [str2cp "000", str2cp "002", str2cp "300"] then
    c ++ str2cp ".SZ"
  else if pyIsDigit c then
    c ++ str2cp ".HK"
  else
    c ++ str2cp ".US"

/-! ## RateLimiter (src/data_provider/longbridge_fetcher.py lines 45-96)

    acquire() is modelled as a state transition on the deque of recorded
    request timestamps. Real time is a rational clock. A call happens at
    instant `now`; when the window is full the call sleeps for the computed
    duration and wakes `slack ≥ 0` seconds later than the nominal wake-up
    instant (time.sleep suspends for at least the requested duration). -/

/-- The eviction loop: `while self.requests and current_time - self.requests[0]
    > self.time_window: self.requests.popleft()`. -/
def evictOld (W now : ℚ) (reqs : List ℚ) : List ℚ :=
  reqs.dropWhile (fun t => decide (W < now - t))

/-- RateLimiter.acquire at instant `now`. Returns the new deque and the
    recorded timestamp, or none when Python would raise IndexError
    (max_requests = 0 with an empty deque). -/
def acquire (Q : Nat) (W : ℚ) (reqs : List ℚ) (now slack : ℚ) : Option (List ℚ × ℚ) :=
  if Q ≤ (evictOld W now reqs).length then
    match evictOld W now reqs with
    | [] => none
    | oldest :: rest =>
      some (evictOld W (now + (W - (now - oldest) + 1 / 10) + slack) (oldest :: rest)
          ++ [now + (W - (now - oldest) + 1 / 10) + slack],
        now + (W - (now - oldest) + 1 / 10) + slack)
  else
    some (evictOld W now reqs ++ [now], now)

/-- A sequence of acquire calls. Each step arrives `gap ≥ 0` seconds after the
    instant at which the previous call recorded its timestamp, and oversleeps
    by `slack ≥ 0`. Returns the final deque and the full history of recorded
    timestamps, or none when an acquire raised. -/
def rlRun (Q : Nat) (W : ℚ) : ℚ → List ℚ → List ℚ → List (ℚ × ℚ) → Option (List ℚ × List ℚ)
  | _, reqs, hist, [] => some (reqs, hist)
  | clock, reqs, hist, (gap, slack) :: steps =>
    match acquire Q W reqs (clock + gap) slack with
    | none => none
    | some (reqs', stamp) => rlRun Q W stamp reqs' (hist ++ [stamp]) steps

/-- Number of recorded timestamps inside the sliding window of length W that
    ends at instant t. -/
def countWin (W : ℚ) (hist : List ℚ) (t : ℚ) : Nat :=
  (hist.filter (fun h => decide (t - W < h) && decide (h ≤ t))).length

/-! ## Rounding: pandas Series.round(2) and Python round(x, 2)

    Both scale by 100, round half to even, and unscale; modelled exactly on
    rationals. -/

/-- Round half to even to the nearest integer. -/
def roundHalfEven (q : ℚ) : ℤ :=
  if q - ⌊q⌋ = 1 / 2 then (if ⌊q⌋ % 2 = 0 then ⌊q⌋ else ⌊q⌋ + 1) else round q

/-- Round to two decimal places, half to even. -/
def round2 (q : ℚ) : ℚ :=
  (roundHalfEven (q * 100) : ℚ) / 100

/-! ## Float cells: the pandas column values that _normalize_data produces.

    The shifted prev_close column holds NaN in its first row, and the percent
    change divides by it, so the embedding needs NaN and the two infinities
    next to finite rationals. Only IEEE cases reachable from finite data and
    NaN occur; the remaining cases follow IEEE as well. -/

inductive FVal where
  | nan
  | posInf
  | negInf
  | num (q : ℚ)
deriving DecidableEq

/-- IEEE subtraction on cells. -/
def FVal.sub : FVal → FVal → FVal
  | .nan, _ => .nan
  | _, .nan => .nan
  | .posInf, .posInf => .nan
  | .posInf, _ => .posInf
  | .negInf, .negInf => .nan
  | .negInf, _ => .negInf
  | .num _, .posInf => .negInf
  | .num _, .negInf => .posInf
  | .num a, .num b => .num (a - b)

/-- IEEE division on cells; a finite nonzero value divided by (positive) zero
    gives the signed infinity, 0/0 gives NaN. -/
def FVal.div : FVal → FVal → FVal
  | .nan, _ => .nan
  | _, .nan => .nan
  | .posInf, .posInf => .nan
  | .posInf, .negInf => .nan
  | .posInf, .num b => if b < 0 then .negInf else .posInf
  | .negInf, .posInf => .nan
  | .negInf, .negInf => .nan
  | .negInf, .num b => if b < 0 then .posInf else .negInf
  | .num _, .posInf => .num 0
  | .num _, .negInf => .num 0
  | .num a, .num b =>
    if b = 0 then (if 0 < a then .posInf else if a < 0 then .negInf else .nan)
    else .num (a / b)

/-- Multiplication by a finite rational constant. -/
def FVal.mulQ : FVal → ℚ → FVal
  | .nan, _ => .nan
  | .posInf, k => if 0 < k then .posInf else if k < 0 then .negInf else .nan
  | .negInf, k => if 0 < k then .negInf else if k < 0 then .posInf else .nan
  | .num a, k => .num (a * k)

/-- Series.round(2): rounds finite cells, keeps NaN and infinities. -/
def FVal.roundTo2 : FVal → FVal
  | .num a => .num (round2 a)
  | v => v

/-! ## Historical data rows and LongbridgeFetcher._normalize_data
    (src/data_provider/longbridge_fetcher.py lines 361-391) -/

/-- One row of the raw frame built in _fetch_raw_data: date, open, high, low,
    close, volume, amount (candle.turnover). Dates are modelled as an ordered
    key. -/
structure RawRow where
  date : ℤ
  openPx : ℚ
  high : ℚ
  low : ℚ
  close : ℚ
  volume : ℤ
  amount : ℚ
deriving DecidableEq, Inhabited

/-- Stable insertion of a row into a date-ascending list. -/
def insertRow (r : RawRow) : List RawRow → List RawRow
  | [] => [r]
  | x :: xs => if r.date < x.date then r :: x :: xs else x :: insertRow r xs

/-- df.sort_values(date, ascending=True). -/
def sortRows : List RawRow → List RawRow
  | [] => []
  | r :: rs => insertRow r (sortRows rs)

/-- One step of the vectorized percent-change computation:
    `((close - prev_close) / prev_close * 100).round(2)` on one row. -/
def pctOf (prev : FVal) (c : ℚ) : FVal :=
  ((((FVal.num c).sub prev).div prev).mulQ 100).roundTo2

/-- The pct_chg column: prev_close = close.shift(1), so the first row reads a
    NaN and row i reads close of row i-1. -/
def pctColumn : FVal → List ℚ → List FVal
  | _, [] => []
  | prev, c :: cs => pctOf prev c :: pctColumn (FVal.num c) cs

/-- The pct_chg column of _normalize_data on the sorted frame. -/
def normalizeData (rows : List RawRow) : List FVal :=
  pctColumn FVal.nan ((sortRows rows).map RawRow.close)

/-- Modelled from the spec: STANDARD_COLUMNS is defined in
    src/data_provider/base.py, which is not part of the sources; section 6 of
    the spec fixes it as the ordered standard quote column set. -/
def STANDARD_COLUMNS : List String :=
  ["date", "open", "high", "low", "close", "volume", "amount", "pct_chg"]

/-- Column assignment df[c] = ...: appends the column when new. -/
def addCol (cols : List String) (c : String) : List String :=
  if c ∈ cols then cols else cols ++ [c]

/-- df.drop(columns=[c], errors=ignore). -/
def dropColumn (cols : List String) (c : String) : List String :=
  cols.filter (fun x => x ≠ c)

/-- The column-set transformation of _normalize_data: add prev_close, add
    pct_chg, drop prev_close, add code, then keep only the standard set in
    keep order. -/
def normalizeCols (cols : List String) : List String :=
  let c1 := addCol cols "prev_close"
  let c2 := addCol c1 "pct_chg"
  let c3 := dropColumn c2 "prev_close"
  let c4 := addCol c3 "code"
  ("code" :: STANDARD_COLUMNS).filter (fun c => c ∈ c4)

/-! ## Error taxonomy and classification
    (src/data_provider/longbridge_fetcher.py lines 282-359) -/

/-- The exceptions moving through the fetch pipeline: the Python builtin types
    tenacity is configured to retry, ValueError from _parse_date,
    AttributeError, arbitrary SDK errors, and the DataFetchError and
    RateLimitError classes from base.py. -/
inductive Exc where
  | connectionError (msg : List Nat)
  | timeoutError (msg : List Nat)
  | valueError (msg : List Nat)
  | attributeError (msg : List Nat)
  | openApiError (msg : List Nat)
  | dataFetchError (msg : List Nat)
  | rateLimitError (msg : List Nat)
deriving DecidableEq

/-- str(e): the message of the exception. -/
def Exc.msg : Exc → List Nat
  | .connectionError m => m
  | .timeoutError m => m
  | .valueError m => m
  | .attributeError m => m
  | .openApiError m => m
  | .dataFetchError m => m
  | .rateLimitError m => m

/-- Throttle keywords checked against the lowercased message. -/
def quotaKeywords : List (List Nat) :=
  [str2cp "限流", str2cp "limit", str2cp "quota", str2cp "配额"]

/-- Entitlement keywords checked against the lowercased message. -/
def permKeywords : List (List Nat) :=
  [str2cp "权限", str2cp "permission", str2cp "无权限"]

/-- The except-block of _fetch_raw_data: lowercase str(e), reraise quota
    failures as RateLimitError, entitlement failures as DataFetchError with a
    remediation hint, everything else as a generic DataFetchError. -/
def classifyFetchError (e : Exc) : Exc :=
  let m := pyLower e.msg
  if containsAnyKW m quotaKeywords then
    .rateLimitError (str2cp "Longbridge 速率限制: " ++ e.msg)
  else if containsAnyKW m permKeywords then
    .dataFetchError (str2cp "Longbridge 权限不足，请开通行情权限: " ++ e.msg)
  else
    .dataFetchError (str2cp "Longbridge 获取数据失败: " ++ e.msg)

/-- The except-block of get_watchlist_from_group: same keyword sets, different
    wrapper messages. -/
def classifyWatchlistError (e : Exc) : Exc :=
  let m := pyLower e.msg
  if containsAnyKW m quotaKeywords then
    .rateLimitError (str2cp "Longbridge 速率限制: " ++ e.msg)
  else if containsAnyKW m permKeywords then
    .dataFetchError (str2cp "Longbridge 权限不足，请开通行情权限: " ++ e.msg)
  else
    .dataFetchError (str2cp "获取长桥自选股分组失败: " ++ e.msg)

/-! ## Credential check: LongbridgeFetcher._init_api
    (src/data_provider/longbridge_fetcher.py lines 142-179) -/

/-- Python truthiness of an optional string: None and the empty string are
    falsy. -/
def pyTruthyOpt : Option (List Nat) → Bool
  | none => false
  | some s => !s.isEmpty

/-- Python `a or b` on optional strings: b when a is falsy. -/
def pyOr (a b : Option (List Nat)) : Option (List Nat) :=
  if pyTruthyOpt a then a else b

/-- _init_api: each credential is the config value or the environment variable;
    when any of the three is missing the handle stays None; otherwise the
    QuoteContext is built, which can itself fail (sdkOk). Returns whether
    self._api was initialized. -/
def initApi (cfgKey cfgSecret cfgToken envKey envSecret envToken : Option (List Nat))
    (sdkOk : Bool) : Bool :=
  let appKey := pyOr cfgKey envKey
  let appSecret := pyOr cfgSecret envSecret
  let accessToken := pyOr cfgToken envToken
  if !(pyTruthyOpt appKey && pyTruthyOpt appSecret && pyTruthyOpt accessToken) then false
  else sdkOk

/-- _determine_priority: priority 0 when the handle initialized, else the
    default 2. -/
def determinePriority (apiOk : Bool) : Nat :=
  if apiOk then 0 else 2

/-! ## The retrying fetch pipeline: LongbridgeFetcher._fetch_raw_data
    (src/data_provider/longbridge_fetcher.py lines 282-359) -/

deriving instance DecidableEq for Except

/-- One candle returned by history_candlesticks_by_date. -/
structure Candle where
  ts : ℤ
  openPx : ℚ
  high : ℚ
  low : ℚ
  close : ℚ
  volume : ℤ
  turnover : ℚ
deriving DecidableEq

/-- The row dict built from one candle. -/
def candleToRow (c : Candle) : RawRow :=
  ⟨c.ts, c.openPx, c.high, c.low, c.close, c.volume, c.turnover⟩

/-- The observable outcome of one execution of the _fetch_raw_data body:
    the raised-or-returned value, whether the rate permit was acquired, and
    whether the upstream API was invoked. -/
structure FetchTrace where
  result : Except Exc (List RawRow)
  acquired : Bool
  upstreamCalled : Bool
deriving DecidableEq

/-- One execution of the body of _fetch_raw_data: the handle check raises
    DataFetchError before the rate permit is acquired; then the permit, the
    code conversion and the date parsing (datesValid abstracts whether both
    date strings parse; _parse_date raises ValueError otherwise) happen before
    the try-block; inside the try, any upstream exception is classified. -/
def fetchRawAttempt (apiOk datesValid : Bool) (upstream : Except Exc (List Candle)) :
    FetchTrace :=
  if !apiOk then
    ⟨.error (.dataFetchError (str2cp "Longbridge API 未初始化，请检查配置")), false, false⟩
  else if !datesValid then
    ⟨.error (.valueError (str2cp "不支持的日期格式")), true, false⟩
  else
    match upstream with
    | .ok candles => ⟨.ok (candles.map candleToRow), true, true⟩
    | .error e => ⟨.error (classifyFetchError e), true, true⟩

/-- retry_if_exception_type((ConnectionError, TimeoutError)). -/
def tenacityRetryable : Exc → Bool
  | .connectionError _ => true
  | .timeoutError _ => true
  | _ => false

/-- wait_exponential(multiplier=1, min=2, max=30): the wait after attempt
    number n is clamp(1 * 2 ^ (n - 1), 2, 30). -/
def waitExp (attempt : Nat) : ℚ :=
  max 2 (min ((2 : ℚ) ^ (attempt - 1)) 30)

/-- The tenacity retry loop with stop_after_attempt: runs the body, and while
    the raised exception satisfies the retry predicate and attempts remain,
    waits and reruns. Returns the final trace, the number of attempts made and
    the list of waits slept between attempts. -/
def tenacityGo (body : Nat → FetchTrace) : Nat → Nat → FetchTrace × Nat × List ℚ
  | attempt, 0 => (body attempt, attempt, [])
  | attempt, fuel + 1 =>
    let t := body attempt
    match t.result with
    | .ok _ => (t, attempt, [])
    | .error e =>
      if tenacityRetryable e then
        let r := tenacityGo body (attempt + 1) fuel
        (r.1, r.2.1, waitExp attempt :: r.2.2)
      else (t, attempt, [])

/-- _fetch_raw_data under its decorator: stop_after_attempt(3) allows two
    retries after the first attempt. `upstream` gives the outcome of the
    history_candlesticks_by_date call on each attempt. -/
def fetchRawData (apiOk datesValid : Bool) (upstream : Nat → Except Exc (List Candle)) :
    FetchTrace × Nat × List ℚ :=
  tenacityGo (fun a => fetchRawAttempt apiOk datesValid (upstream a)) 1 2

/-! ## Watchlist lookup: LongbridgeFetcher.get_watchlist_from_group
    (src/data_provider/longbridge_fetcher.py lines 393-482) -/

/-- One WatchlistGroup of the upstream account. -/
structure WGroup where
  gid : ℤ
  name : List Nat
  securities : List (List Nat)
deriving DecidableEq

/-- The code inside the try-block after watchlist() returned: resolve the
    group by name (priority) or id; with neither supplied the source evaluates
    `resp.groups[0]` on a plain list, which raises AttributeError. Groups that
    resolve to nothing or have no securities produce an empty list. -/
def watchlistBody (resp : List WGroup) (gname : Option (List Nat)) (gid : Option ℤ) :
    Except Exc (List (List Nat)) :=
  if resp.length = 0 then .ok []
  else
    match gname with
    | some n =>
      if !n.isEmpty then
        match resp.find? (fun g => decide (g.name = n)) with
        | some g => if !g.securities.isEmpty then .ok g.securities else .ok []
        | none => .ok []
      else fallbackLookup resp gid
    | none => fallbackLookup resp gid
where
  /-- The elif group_id / else branches. -/
  fallbackLookup (resp : List WGroup) (gid : Option ℤ) : Except Exc (List (List Nat)) :=
    match gid with
    | some i =>
      match resp.find? (fun g => decide (g.gid = i)) with
      | some g => if !g.securities.isEmpty then .ok g.securities else .ok []
      | none => .ok []
    | none => .error (.attributeError (str2cp "list object has no attribute groups"))

/-- get_watchlist_from_group: handle check, rate permit, watchlist() call
    (wl is its outcome), group resolution, and the classifying except-block. -/
def getWatchlistFromGroup (apiOk : Bool) (wl : Except Exc (List WGroup))
    (gname : Option (List Nat)) (gid : Option ℤ) : Except Exc (List (List Nat)) :=
  if !apiOk then .error (.dataFetchError (str2cp "Longbridge API 未初始化，请检查配置"))
  else
    match wl with
    | .error e => .error (classifyWatchlistError e)
    | .ok resp =>
      match watchlistBody resp gname gid with
      | .ok codes => .ok codes
      | .error e => .error (classifyWatchlistError e)

/-! ## Realtime quotes (src/data_provider/longbridge_fetcher.py lines 484-727) -/

/-- One quote from QuoteContext.quote; optional fields are None/0-falsy. -/
structure LBQuote where
  symbol : List Nat
  lastDone : Option ℚ
  prevClose : Option ℚ
  openPx : Option ℚ
  high : Option ℚ
  low : Option ℚ
  volume : Option ℤ
  turnover : Option ℚ
deriving DecidableEq

/-- The per-quote dict of get_realtime_quote_batch (Chinese keys mapped to
    field names: 代码 code, 最新价 lastPrice, 昨收价 prevClose, 今开 openPx,
    最高 high, 最低 low, 成交量 volume, 成交额 turnover, 涨跌幅 changePct,
    涨跌额 changeAmt, 振幅 amplitude; the remaining keys are constant 0). -/
structure QuoteRow where
  code : List Nat
  lastPrice : ℚ
  prevClose : ℚ
  openPx : ℚ
  high : ℚ
  low : ℚ
  volume : ℤ
  turnover : ℚ
  changePct : ℚ
  changeAmt : ℚ
  amplitude : ℚ
deriving DecidableEq

/-- `float(x) if x else 0.0` on an optional value (0 is falsy and maps to 0). -/
def optQ (v : Option ℚ) : ℚ := v.getD 0

/-- `int(x) if x else 0` on an optional value. -/
def optZ (v : Option ℤ) : ℤ := v.getD 0

/-- The response-parsing loop body of get_realtime_quote_batch: percent change
    and amplitude guard against nonpositive previous close by yielding 0. -/
def mkQuoteRow (q : LBQuote) : QuoteRow :=
  let lastDone := optQ q.lastDone
  let prevClose := optQ q.prevClose
  let changePct := if 0 < prevClose then (lastDone - prevClose) / prevClose * 100 else 0
  let changeAmt := lastDone - prevClose
  let high := optQ q.high
  let low := optQ q.low
  let amplitude := if 0 < prevClose then (high - low) / prevClose * 100 else 0
  ⟨q.symbol, lastDone, prevClose, optQ q.openPx, high, low, optZ q.volume, optQ q.turnover,
    round2 changePct, round2 changeAmt, round2 amplitude⟩

/-- Python dict assignment keyed by symbol: replace in place or append. -/
def dictInsert (d : List (List Nat × QuoteRow)) (k : List Nat) (v : QuoteRow) :
    List (List Nat × QuoteRow) :=
  if d.any (fun p => decide (p.1 = k)) then
    d.map (fun p => if p.1 = k then (k, v) else p)
  else d ++ [(k, v)]

/-- range(0, len(l), n) batching. -/
def chunksAux (n : Nat) : Nat → List α → List (List α)
  | 0, _ => []
  | _, [] => []
  | fuel + 1, l => l.take n :: chunksAux n fuel (l.drop n)

/-- Split a list into consecutive batches of at most n elements. -/
def chunksOf (n : Nat) (l : List α) : List (List α) :=
  chunksAux n l.length l

/-- A-share filter: the converted symbol ends in .SH or .SZ. -/
def isMainland (s : List Nat) : Bool :=
  (str2cp ".SH").isSuffixOf s || (str2cp ".SZ").isSuffixOf s

/-- The batched quote() loop: each batch call can raise; rows accumulate into
    the dict in order. -/
def runQuoteBatches (api : List (List Nat) → Except Exc (List LBQuote)) :
    List (List (List Nat)) → List (List Nat × QuoteRow) →
    Except Exc (List (List Nat × QuoteRow))
  | [], acc => .ok acc
  | b :: bs, acc =>
    match api b with
    | .error e => .error e
    | .ok quotes =>
      runQuoteBatches api bs (quotes.foldl (fun d q => dictInsert d q.symbol (mkQuoteRow q)) acc)

/-- get_realtime_quote_batch: None without a handle; convert and filter to
    mainland symbols; None when nothing remains; call quote() in batches of
    500 inside a catch-all try that degrades any exception to None. -/
def getRealtimeQuoteBatch (apiOk : Bool)
    (quoteApi : List (List Nat) → Except Exc (List LBQuote))
    (symbols : List (List Nat)) : Option (List (List Nat × QuoteRow)) :=
  if !apiOk then none
  else
    let lbSymbols := (symbols.map convertStockCode).filter isMainland
    if lbSymbols.isEmpty then none
    else
      match runQuoteBatches quoteApi (chunksOf 500 lbSymbols) [] with
      | .error _ => none
      | .ok d => some d

/-- One quote from QuoteContext.calc_indexes. Source field names: last_done,
    change_value, change_rate, volume, turnover, turnover_rate, volume_ratio,
    amplitude, total_market_value, capital_flow, pe_ttm_ratio, pb_ratio,
    dividend_ratio_ttm, five_day_change_rate, ten_day_change_rate,
    half_year_change_rate, five_minutes_change_rate. -/
structure LBCalc where
  symbol : List Nat
  lastDone : Option ℚ
  changeValue : Option ℚ
  changeRate : Option ℚ
  volume : Option ℤ
  turnover : Option ℚ
  turnoverRate : Option ℚ
  volRel : Option ℚ
  amplitude : Option ℚ
  totalMv : Option ℚ
  capitalFlow : Option ℚ
  peTtm : Option ℚ
  pb : Option ℚ
  dividendTtm : Option ℚ
  fiveDay : Option ℚ
  tenDay : Option ℚ
  halfYear : Option ℚ
  fiveMin : Option ℚ
deriving DecidableEq

/-- The per-quote dict of get_realtime_quote_with_indexes; every missing field
    becomes 0. -/
structure CalcRow where
  code : List Nat
  lastPrice : ℚ
  changeAmt : ℚ
  changePct : ℚ
  volume : ℤ
  turnover : ℚ
  turnoverRate : ℚ
  volRel : ℚ
  amplitude : ℚ
  totalMv : ℚ
  capitalFlow : ℚ
  peTtm : ℚ
  pb : ℚ
  dividendTtm : ℚ
  fiveDay : ℚ
  tenDay : ℚ
  halfYear : ℚ
  fiveMin : ℚ
deriving DecidableEq

/-- The response-parsing loop body of get_realtime_quote_with_indexes. -/
def mkCalcRow (q : LBCalc) : CalcRow :=
  ⟨q.symbol, optQ q.lastDone, optQ q.changeValue, optQ q.changeRate, optZ q.volume,
    optQ q.turnover, optQ q.turnoverRate, optQ q.volRel, optQ q.amplitude, optQ q.totalMv,
    optQ q.capitalFlow, optQ q.peTtm, optQ q.pb, optQ q.dividendTtm, optQ q.fiveDay,
    optQ q.tenDay, optQ q.halfYear, optQ q.fiveMin⟩

/-- Dict assignment for calc rows. -/
def dictInsertC (d : List (List Nat × CalcRow)) (k : List Nat) (v : CalcRow) :
    List (List Nat × CalcRow) :=
  if d.any (fun p => decide (p.1 = k)) then
    d.map (fun p => if p.1 = k then (k, v) else p)
  else d ++ [(k, v)]

/-- get_realtime_quote_with_indexes: None without a handle; convert all symbols
    (no mainland filter and no emptiness check); a single calc_indexes() call
    inside a catch-all try that degrades any exception to None. -/
def getRealtimeQuoteWithIndexes (apiOk : Bool)
    (calcApi : List (List Nat) → Except Exc (List LBCalc))
    (symbols : List (List Nat)) : Option (List (List Nat × CalcRow)) :=
  if !apiOk then none
  else
    let lbSymbols := symbols.map convertStockCode
    match calcApi lbSymbols with
    | .error _ => none
    | .ok quotes => some (quotes.foldl (fun d q => dictInsertC d q.symbol (mkCalcRow q)) [])

/-! ## ChromeFetcher daily cache (src/data_provider/chrome_fetcher.py
    lines 189-231) -/

/-- One scraped sector row (板块名称 name plus the numeric payload; only the
    name takes part in deduplication). -/
structure SRow where
  name : String
  lastPrice : ℚ
  changePct : ℚ
  changeAmt : ℚ
  turnover : ℚ
  advDecl : String
  leadStock : String
  leadChange : ℚ
deriving DecidableEq

/-- The JSON cache file: date (YYYY-MM-DD), full ISO timestamp, data. -/
structure CacheFile where
  cdate : String
  timestamp : String
  data : List SRow
deriving DecidableEq

/-- _save_cached_data: overwrite the cache file with today's date, the current
    timestamp and the rows; a failed write is caught and leaves the file
    untouched. -/
def saveCachedData (fs : Option CacheFile) (today ts : String) (rows : List SRow)
    (writeOk : Bool) : Option CacheFile :=
  if writeOk then some ⟨today, ts, rows⟩ else fs

/-- _get_cached_data: missing file or failed read gives None; a file dated
    today gives its data; a stale file gives None and is left in place.
    Returns the read result together with the file-system state afterwards. -/
def getCachedData (fs : Option CacheFile) (today : String) (readOk : Bool) :
    Option (List SRow) × Option CacheFile :=
  match fs with
  | none => (none, none)
  | some c =>
    if !readOk then (none, some c)
    else if c.cdate = today then (some c.data, some c)
    else (none, some c)

/-! ## ChromeFetcher.get_industry_sectors
    (src/data_provider/chrome_fetcher.py lines 233-358) -/

/-- The open/closed state of the three browser resources. -/
structure Res where
  pageOpen : Bool
  ctxOpen : Bool
  browserOpen : Bool
deriving DecidableEq

/-- connect(): connect_over_cdp sets self.browser, then new_context sets
    self.context, then new_page sets self.page; any raise is caught and
    reported as False, leaving the resources acquired so far open. -/
def connectChrome (attachOk ctxOk pageOk : Bool) : Bool × Res :=
  if !attachOk then (false, ⟨false, false, false⟩)
  else if !ctxOk then (false, ⟨false, false, true⟩)
  else if !pageOk then (false, ⟨false, true, true⟩)
  else (true, ⟨true, true, true⟩)

/-- close(): page, context and browser are closed in order inside one
    try-block, so a raise while closing one resource skips the remaining
    close calls. -/
def closeChrome (r : Res) (pageCloseThrows ctxCloseThrows browserCloseThrows : Bool) : Res :=
  if r.pageOpen && pageCloseThrows then r
  else
    let r1 : Res := ⟨false, r.ctxOpen, r.browserOpen⟩
    if r1.ctxOpen && ctxCloseThrows then r1
    else
      let r2 : Res := ⟨false, false, r1.browserOpen⟩
      if r2.browserOpen && browserCloseThrows then r2
      else ⟨false, false, false⟩

/-- What one iteration of the pagination loop observes: either page.evaluate
    raises, or the table shows some rows and a next-page control is present or
    absent. -/
inductive PageStep where
  | raises
  | shows (rows : List SRow) (hasNext : Bool)
deriving DecidableEq

/-- The pagination loop: extract rows, stop on an empty extraction, keep only
    names not yet collected, stop when nothing is new, stop when no next-page
    control exists, otherwise click and continue. An exhausted trace reads as
    an empty extraction. Returns the accumulated rows and whether the loop
    raised (a raise keeps the rows accumulated so far). -/
def scrapeLoop (acc : List SRow) : List PageStep → List SRow × Bool
  | [] => (acc, false)
  | PageStep.raises :: _ => (acc, true)
  | PageStep.shows rows next :: rest =>
    if rows.isEmpty then (acc, false)
    else
      let newRows := rows.filter (fun s => !(acc.map SRow.name).contains s.name)
      if newRows.isEmpty then (acc, false)
      else if !next then (acc ++ newRows, false)
      else scrapeLoop (acc ++ newRows) rest

/-- The environment of one get_industry_sectors call: the cache read outcome,
    which connect sub-steps succeed, whether page.goto raises, the pagination
    trace, and which close sub-calls raise. -/
structure ChromeEnv where
  cache : Option (List SRow)
  attachOk : Bool
  ctxOk : Bool
  pageOk : Bool
  gotoThrows : Bool
  steps : List PageStep
  pageCloseThrows : Bool
  ctxCloseThrows : Bool
  browserCloseThrows : Bool
deriving DecidableEq

/-- get_industry_sectors: serve a truthy cache without touching the browser;
    return empty when connect() fails (without any cleanup call); otherwise
    run the loop inside try/except/finally, save a nonempty result to the
    cache (the saved flag), and always reach close() from the try-block.
    Returns the rows, the final resource state and the saved flag. -/
def getIndustrySectors (env : ChromeEnv) : List SRow × Res × Bool :=
  let cacheHit := match env.cache with
    | some d => !d.isEmpty
    | none => false
  if cacheHit then (env.cache.getD [], ⟨false, false, false⟩, false)
  else
    let conn := connectChrome env.attachOk env.ctxOk env.pageOk
    if !conn.1 then ([], conn.2, false)
    else
      let body := if env.gotoThrows then ([], true) else scrapeLoop [] env.steps
      let saved := !body.2 && !body.1.isEmpty
      (body.1, closeChrome conn.2 env.pageCloseThrows env.ctxCloseThrows env.browserCloseThrows,
        saved)

/-- The run invariant of the rate limiter: the recorded history splits into an
    old part, every element of which lies strictly more than one window behind
    the last recorded instant, and the current deque; every recorded instant
    lies in the past; the deque never exceeds the quota; and no window of
    length W contains more than Q recorded instants. -/
def RLGood (Q : Nat) (W clock : ℚ) (reqs hist : List ℚ) : Prop :=
  (∃ old, hist = old ++ reqs ∧ ∀ h ∈ old, h < clock - W) ∧
  (∀ h ∈ hist, h ≤ clock) ∧
  reqs.length ≤ Q ∧
  ∀ t : ℚ, countWin W hist t ≤ Q

/-! # Theorems -/

/-! ## Generic list lemmas -/

/-- Decomposition of dropWhile: the dropped part satisfies the predicate. -/
theorem dropWhile_decomp (p : α → Bool) (l : List α) :
    ∃ pre, l = pre ++ l.dropWhile p ∧ ∀ x ∈ pre, p x = true :=
  ⟨l.takeWhile p, (List.takeWhile_append_dropWhile p l).symm,
    fun _ hx => List.mem_takeWhile_imp hx⟩

/-- The first remaining element of dropWhile fails the predicate. -/
theorem dropWhile_first_false (p : α → Bool) (l : List α) (x : α) (xs : List α)
    (h : l.dropWhile p = x :: xs) : p x = false := by
  have hne : l.dropWhile p ≠ [] := by simp [h]
  have := List.head_dropWhile_not p l hne
  simpa [h] using this

/-- dropWhile is the identity when the head (if any) fails the predicate. -/
theorem dropWhile_eq_self_of_head (p : α → Bool) :
    ∀ l : List α, (∀ x xs, l = x :: xs → p x = false) → l.dropWhile p = l
  | [], _ => rfl
  | x :: xs, h => by
    have hx : p x = false := h x xs rfl
    simp [List.dropWhile_cons, hx]

/-- Filtering with a pointwise weaker predicate keeps at least as many elements. -/
theorem filter_imp_length_le (p q : α → Bool) :
    ∀ l : List α, (∀ a ∈ l, p a = true → q a = true) →
      (l.filter p).length ≤ (l.filter q).length := by
  intro l
  induction l with
  | nil => intro _; simp
  | cons a l ih =>
    intro h
    have hl := ih fun x hx hpx => h x (List.mem_cons_of_mem a hx) hpx
    rw [List.filter_cons, List.filter_cons]
    by_cases hp : p a = true
    · rw [if_pos hp, if_pos (h a (List.mem_cons_self a l) hp)]
      simpa using hl
    · rw [if_neg hp]
      by_cases hq : q a = true
      · rw [if_pos hq]
        exact le_trans hl (by simp)
      · rw [if_neg hq]
        exact hl

/-! ## Character-level lemmas for the symbol normalizer -/

/-- Uppercasing does not change whether a character is whitespace. -/
theorem isWSc_toUpperc (c : Nat) : isWSc (toUpperc c) = isWSc c := by
  unfold toUpperc
  split
  · next h =>
    simp only [isLowerc, decide_eq_true_eq] at h
    simp only [isWSc, decide_eq_decide]
    omega
  · rfl

/-- Uppercasing is idempotent on characters. -/
theorem toUpperc_idem (c : Nat) : toUpperc (toUpperc c) = toUpperc c := by
  unfold toUpperc
  split
  · next h =>
    simp only [isLowerc, decide_eq_true_eq] at h
    have : isLowerc (c - 32) = false := by
      simp only [isLowerc, decide_eq_false_iff_not]
      omega
    simp [this]
  · rfl

/-! ## Lemmas about pyStrip and pyUpper composites -/

/-- The first character surviving strip is not whitespace. -/
theorem pyStrip_head_false (s : List Nat) (x : Nat) (xs : List Nat)
    (h : pyStrip s = x :: xs) : isWSc x = false := by
  have hsplit := List.takeWhile_append_dropWhile isWSc (s.dropWhile isWSc).reverse
  have ha2 : s.dropWhile isWSc =
      pyStrip s ++ ((s.dropWhile isWSc).reverse.takeWhile isWSc).reverse := by
    unfold pyStrip
    conv_lhs => rw [← List.reverse_reverse (s.dropWhile isWSc), ← hsplit]
    rw [List.reverse_append]
  rw [h] at ha2
  exact dropWhile_first_false isWSc s x _ (by simpa using ha2)

/-- The last character surviving strip is not whitespace. -/
theorem pyStrip_last_false (s : List Nat) (x : Nat) (xs : List Nat)
    (h : (pyStrip s).reverse = x :: xs) : isWSc x = false := by
  have h2 : (s.dropWhile isWSc).reverse.dropWhile isWSc = x :: xs := by
    simpa [pyStrip] using h
  exact dropWhile_first_false isWSc _ x xs h2

/-- Strip is the identity on lists whose two ends are not whitespace. -/
theorem pyStrip_eq_self (l : List Nat)
    (h1 : ∀ x xs, l = x :: xs → isWSc x = false)
    (h2 : ∀ x xs, l.reverse = x :: xs → isWSc x = false) :
    pyStrip l = l := by
  unfold pyStrip
  rw [dropWhile_eq_self_of_head isWSc l h1, dropWhile_eq_self_of_head isWSc l.reverse h2,
    List.reverse_reverse]

/-- The head of the normalized code (strip then upper) is not whitespace. -/
theorem code_head_false (s : List Nat) (x : Nat) (xs : List Nat)
    (h : pyUpper (pyStrip s) = x :: xs) : isWSc x = false := by
  unfold pyUpper at h
  rcases ps : pyStrip s with _ | ⟨c, cs⟩
  · rw [ps] at h; simp at h
  · rw [ps] at h
    simp only [List.map_cons, List.cons.injEq] at h
    rw [← h.1, isWSc_toUpperc]
    exact pyStrip_head_false s c cs ps

/-- The last character of the normalized code is not whitespace. -/
theorem code_last_false (s : List Nat) (x : Nat) (xs : List Nat)
    (h : (pyUpper (pyStrip s)).reverse = x :: xs) : isWSc x = false := by
  unfold pyUpper at h
  rw [← List.map_reverse] at h
  rcases ps : (pyStrip s).reverse with _ | ⟨c, cs⟩
  · rw [ps] at h; simp at h
  · rw [ps] at h
    simp only [List.map_cons, List.cons.injEq] at h
    rw [← h.1, isWSc_toUpperc]
    exact pyStrip_last_false s c cs ps

/-- Strip is the identity on an already-normalized code. -/
theorem code_strip_fix (s : List Nat) :
    pyStrip (pyUpper (pyStrip s)) = pyUpper (pyStrip s) :=
  pyStrip_eq_self _ (code_head_false s) (code_last_false s)

/-- Upper is the identity on an already-normalized code. -/
theorem code_upper_fix (s : List Nat) :
    pyUpper (pyUpper (pyStrip s)) = pyUpper (pyStrip s) := by
  unfold pyUpper
  rw [List.map_map]
  exact List.map_congr_left fun c _ => toUpperc_idem c

/-- Strip is the identity on a normalized code with a concrete suffix glued on. -/
theorem append_strip_fix (s : List Nat) (c : Nat) (cs : List Nat) (d : Nat) (ds : List Nat)
    (hsuf : c :: cs = (d :: ds).reverse) (hc : isWSc c = false) (hd : isWSc d = false) :
    pyStrip (pyUpper (pyStrip s) ++ (d :: ds)) = pyUpper (pyStrip s) ++ (d :: ds) := by
  apply pyStrip_eq_self
  · intro x xs h
    rcases u : pyUpper (pyStrip s) with _ | ⟨y, ys⟩
    · rw [u] at h
      simp only [List.nil_append, List.cons.injEq] at h
      rw [← h.1]; exact hd
    · rw [u] at h
      simp only [List.cons_append, List.cons.injEq] at h
      rw [← h.1]
      exact code_head_false s y ys u
  · intro x xs h
    rw [List.reverse_append, ← hsuf] at h
    simp only [List.cons_append, List.cons.injEq] at h
    rw [← h.1]; exact hc

/-- A list is a fixed point of convertStockCode whenever strip and upper fix
    it and it contains a dot. -/
theorem convert_fixed (y : List Nat) (h1 : pyStrip y = y) (h2 : pyUpper y = y)
    (h3 : 46 ∈ y) : convertStockCode y = y := by
  unfold convertStockCode
  rw [h1, h2]
  simp [h3]

/-- The normalized code with a concrete non-whitespace uppercase dotted suffix
    glued on is a fixed point of convertStockCode. -/
theorem convert_append_fixed (s : List Nat) (d : Nat) (ds : List Nat) (c : Nat) (cs : List Nat)
    (hrev : c :: cs = (d :: ds).reverse) (hc : isWSc c = false) (hd : isWSc d = false)
    (hupper : pyUpper (d :: ds) = d :: ds) (hmem : 46 ∈ d :: ds) :
    convertStockCode (pyUpper (pyStrip s) ++ (d :: ds)) = pyUpper (pyStrip s) ++ (d :: ds) := by
  apply convert_fixed
  · exact append_strip_fix s c cs d ds hrev hc hd
  · have huf := code_upper_fix s
    unfold pyUpper at huf hupper ⊢
    rw [List.map_append, huf, hupper]
  · exact List.mem_append_right _ hmem

/-- C7. Symbol normalization is idempotent: applying _convert_stock_code to
    its own output returns that output unchanged, for every input string. -/
theorem convertStockCode_idempotent (s : List Nat) :
    convertStockCode (convertStockCode s) = convertStockCode s := by
  have hdef : convertStockCode s =
      (if 46 ∈ pyUpper (pyStrip s) then pyUpper (pyStrip s)
       else if pyIsDigit (pyUpper (pyStrip s)) then
         if startsWithAny (pyUpper (pyStrip s))
             [str2cp "600", str2cp "601", str2cp "603", str2cp "688"] then
           pyUpper (pyStrip s) ++ str2cp ".SH"
         else if startsWithAny (pyUpper (pyStrip s))
             [str2cp "000", str2cp "002", str2cp "300"] then
           pyUpper (pyStrip s) ++ str2cp ".SZ"
         else pyUpper (pyStrip s) ++ str2cp ".HK"
       else pyUpper (pyStrip s) ++ str2cp ".US") := rfl
  rw [hdef]
  by_cases h1 : 46 ∈ pyUpper (pyStrip s)
  · rw [if_pos h1]
    exact convert_fixed _ (code_strip_fix s) (code_upper_fix s) h1
  · rw [if_neg h1]
    by_cases h2 : pyIsDigit (pyUpper (pyStrip s)) = true
    · rw [if_pos h2]
      by_cases h3 : startsWithAny (pyUpper (pyStrip s))
          [str2cp "600", str2cp "601", str2cp "603", str2cp "688"] = true
      · rw [if_pos h3, show str2cp ".SH" = 46 :: [83, 72] from by decide]
        exact convert_append_fixed s 46 [83, 72] 72 [83, 46] (by decide) (by decide)
          (by decide) (by decide) (by decide)
      · rw [if_neg h3]
        by_cases h4 : startsWithAny (pyUpper (pyStrip s))
            [str2cp "000", str2cp "002", str2cp "300"] = true
        · rw [if_pos h4, show str2cp ".SZ" = 46 :: [83, 90] from by decide]
          exact convert_append_fixed s 46 [83, 90] 90 [83, 46] (by decide) (by decide)
            (by decide) (by decide) (by decide)
        · rw [if_neg h4, show str2cp ".HK" = 46 :: [72, 75] from by decide]
          exact convert_append_fixed s 46 [72, 75] 75 [72, 46] (by decide) (by decide)
            (by decide) (by decide) (by decide)
    · rw [if_neg h2, show str2cp ".US" = 46 :: [85, 83] from by decide]
      exact convert_append_fixed s 46 [85, 83] 83 [85, 46] (by decide) (by decide)
        (by decide) (by decide) (by decide)

/-- C6 counterexample. On the input string aapl.us, which already carries a
    market suffix (in lowercase), the source returns the uppercased form
    AAPL.US: it is neither the unchanged input that rule 1 of the claim
    promises nor the input with .US appended that rule 5 would give. -/
theorem convert_lowercase_suffix_counterexample :
    convertStockCode (str2cp "aapl.us") = str2cp "AAPL.US" ∧
    convertStockCode (str2cp "aapl.us") ≠ str2cp "aapl.us" ∧
    convertStockCode (str2cp "aapl.us") ≠ str2cp "aapl.us" ++ str2cp ".US" := by
  refine ⟨by decide, by decide, by decide⟩

/-- C6 amended. The normalization rules of the spec, restated over the
    stripped-and-uppercased form of the input (rule 1 returns that normalized
    form; rule 3 applies only to purely numeric codes), agree with the source
    on every input, and the four canonical examples map as the spec states. -/
theorem convert_rules_refined :
    (∀ s : List Nat, specConvertStockCode s = convertStockCode s) ∧
    convertStockCode (str2cp "600519") = str2cp "600519.SH" ∧
    convertStockCode (str2cp "000001") = str2cp "000001.SZ" ∧
    convertStockCode (str2cp "700") = str2cp "700.HK" ∧
    convertStockCode (str2cp "AAPL") = str2cp "AAPL.US" := by
  refine ⟨fun s => ?_, by decide, by decide, by decide, by decide⟩
  unfold specConvertStockCode convertStockCode
  by_cases h1 : 46 ∈ pyUpper (pyStrip s)
  · simp [h1]
  · by_cases h2 : pyIsDigit (pyUpper (pyStrip s)) = true
    · simp [h1, h2]
    · simp [h1, h2]

/-! ## Rate limiter lemmas (claim C1) -/

/-- Eviction drops a front segment of entries older than the window. -/
theorem evictOld_decomp (W now : ℚ) (reqs : List ℚ) :
    ∃ pre, reqs = pre ++ evictOld W now reqs ∧ ∀ h ∈ pre, h < now - W := by
  obtain ⟨pre, h1, h2⟩ := dropWhile_decomp (fun t => decide (W < now - t)) reqs
  refine ⟨pre, h1, fun x hx => ?_⟩
  have := h2 x hx
  simp only [decide_eq_true_eq] at this
  linarith

/-- The head surviving eviction is at most one window old. -/
theorem evictOld_head_le (W now : ℚ) (reqs : List ℚ) (x : ℚ) (xs : List ℚ)
    (h : evictOld W now reqs = x :: xs) : now - x ≤ W := by
  have := dropWhile_first_false (fun t => decide (W < now - t)) reqs x xs h
  simp only [decide_eq_false_iff_not, not_lt] at this
  linarith

/-- Eviction never lengthens the deque. -/
theorem evictOld_length_le (W now : ℚ) (reqs : List ℚ) :
    (evictOld W now reqs).length ≤ reqs.length := by
  obtain ⟨pre, h1, _⟩ := evictOld_decomp W now reqs
  have h2 := congrArg List.length h1
  rw [List.length_append] at h2
  omega

/-- Window counts add over history concatenation. -/
theorem countWin_append (W : ℚ) (h1 h2 : List ℚ) (t : ℚ) :
    countWin W (h1 ++ h2) t = countWin W h1 t + countWin W h2 t := by
  unfold countWin
  rw [List.filter_append, List.length_append]

/-- Window count of a single recorded instant. -/
theorem countWin_single (W r t : ℚ) :
    countWin W [r] t = if t - W < r ∧ r ≤ t then 1 else 0 := by
  unfold countWin
  rw [List.filter_cons]
  by_cases h : t - W < r ∧ r ≤ t
  · rw [if_pos h]
    have hb : (decide (t - W < r) && decide (r ≤ t)) = true := by
      simp [h.1, h.2]
    rw [if_pos hb]
    simp
  · rw [if_neg h]
    have hb : ¬((decide (t - W < r) && decide (r ≤ t)) = true) := by
      rcases not_and_or.mp h with h1 | h1 <;> simp [h1]
    rw [if_neg hb]
    simp

/-- A window ending later than every recorded instant counts no more than the
    window ending at the last instant. -/
theorem countWin_mono (W : ℚ) (hist : List ℚ) (r t : ℚ)
    (hb : ∀ h ∈ hist, h ≤ r) (hrt : r ≤ t) :
    countWin W hist t ≤ countWin W hist r := by
  unfold countWin
  apply filter_imp_length_le
  intro a ha hpa
  simp only [Bool.and_eq_true, decide_eq_true_eq] at hpa ⊢
  exact ⟨by linarith [hpa.1], hb a ha⟩

/-- The window ending at r counts only the suffix of entries younger than one
    window behind r. -/
theorem countWin_le_suffix (W r : ℚ) (P reqsF : List ℚ)
    (hP : ∀ h ∈ P, h < r - W) :
    countWin W (P ++ reqsF) r ≤ reqsF.length := by
  rw [countWin_append]
  have h0 : countWin W P r = 0 := by
    unfold countWin
    rw [List.length_eq_zero]
    rw [List.filter_eq_nil_iff]
    intro a ha
    simp only [Bool.and_eq_true, decide_eq_true_eq, not_and]
    intro h1 _
    exact absurd h1 (by linarith [hP a ha])
  have h2 : countWin W reqsF r ≤ reqsF.length := List.length_filter_le _ _
  omega

/-- The window bound survives recording one more instant, provided the new
    instant is latest, the history splits below the new instant's window, and
    the surviving suffix leaves room for one more entry. -/
theorem win_bound_step (Q : Nat) (W r : ℚ) (hist P reqsF : List ℚ)
    (hsplit : hist = P ++ reqsF) (hP : ∀ h ∈ P, h < r - W)
    (hbd : ∀ h ∈ hist, h ≤ r) (hlen : reqsF.length + 1 ≤ Q)
    (hwin : ∀ t, countWin W hist t ≤ Q) :
    ∀ t, countWin W (hist ++ [r]) t ≤ Q := by
  intro t
  rw [countWin_append]
  by_cases hmem : t - W < r ∧ r ≤ t
  · have h1 : countWin W hist t ≤ countWin W hist r := countWin_mono W hist r t hbd hmem.2
    have h2 : countWin W hist r ≤ reqsF.length := by
      rw [hsplit]; exact countWin_le_suffix W r P reqsF hP
    have h3 : countWin W [r] t ≤ 1 := by
      rw [countWin_single]; split <;> omega
    omega
  · have h3 : countWin W [r] t = 0 := by rw [countWin_single, if_neg hmem]
    have := hwin t
    omega

/-- One acquire call preserves the run invariant and moves the clock forward. -/
theorem acquire_good (Q : Nat) (W clock gap slack : ℚ) (reqs hist reqs' : List ℚ) (stamp : ℚ)
    (hg : RLGood Q W clock reqs hist) (hgap : 0 ≤ gap) (hslack : 0 ≤ slack)
    (hacq : acquire Q W reqs (clock + gap) slack = some (reqs', stamp)) :
    RLGood Q W stamp reqs' (hist ++ [stamp]) ∧ clock ≤ stamp := by
  obtain ⟨⟨old, hsplit, hold⟩, hbd, hlen, hwin⟩ := hg
  obtain ⟨d1, hd1, hd1lt⟩ := evictOld_decomp W (clock + gap) reqs
  have hlE1 : (evictOld W (clock + gap) reqs).length ≤ reqs.length :=
    evictOld_length_le W (clock + gap) reqs
  unfold acquire at hacq
  generalize hE1 : evictOld W (clock + gap) reqs = E1 at hacq hd1 hlE1
  by_cases hfull : Q ≤ E1.length
  · rw [if_pos hfull] at hacq
    rcases E1 with _ | ⟨oldest, rest⟩
    · exact absurd hacq (by simp)
    · have hhead : clock + gap - oldest ≤ W :=
        evictOld_head_le W (clock + gap) reqs oldest rest hE1
      have hacq2 :
          some (evictOld W (clock + gap + (W - (clock + gap - oldest) + 1 / 10) + slack)
              (oldest :: rest)
            ++ [clock + gap + (W - (clock + gap - oldest) + 1 / 10) + slack],
            clock + gap + (W - (clock + gap - oldest) + 1 / 10) + slack) =
          some (reqs', stamp) := hacq
      obtain ⟨wk, hwkdef⟩ :
          ∃ wk : ℚ, wk = clock + gap + (W - (clock + gap - oldest) + 1 / 10) + slack :=
        ⟨_, rfl⟩
      rw [← hwkdef] at hacq2
      have hpair := Option.some.inj hacq2
      have hreqs' : evictOld W wk (oldest :: rest) ++ [wk] = reqs' := congrArg Prod.fst hpair
      have hstamp : wk = stamp := congrArg Prod.snd hpair
      have hwklb : clock + gap + 1 / 10 ≤ wk := by rw [hwkdef]; linarith
      have hwgt : W < wk - oldest := by rw [hwkdef]; linarith
      have hevcons : evictOld W wk (oldest :: rest) = evictOld W wk rest :=
        List.dropWhile_cons_of_pos (by simp only [decide_eq_true_eq]; exact hwgt)
      rw [hevcons] at hreqs'
      obtain ⟨d2, hd2, hd2lt⟩ := evictOld_decomp W wk rest
      have hlE2 : (evictOld W wk rest).length ≤ rest.length := evictOld_length_le W wk rest
      generalize hE2 : evictOld W wk rest = E2 at hd2 hreqs' hlE2
      have hsplit2 : hist = (old ++ d1 ++ oldest :: d2) ++ E2 := by
        rw [hsplit, hd1, hd2]
        simp [List.append_assoc]
      have hP : ∀ h ∈ old ++ d1 ++ oldest :: d2, h < wk - W := by
        intro h hh
        rcases List.mem_append.mp hh with hh1 | hh2
        · rcases List.mem_append.mp hh1 with hha | hhb
          · have := hold h hha; linarith
          · have := hd1lt h hhb; linarith
        · rcases List.mem_cons.mp hh2 with rfl | hhc
          · linarith
          · have := hd2lt h hhc; linarith
      have hbd2 : ∀ h ∈ hist, h ≤ wk := fun h hh => le_trans (hbd h hh) (by linarith)
      have hroom : E2.length + 1 ≤ Q := by
        simp only [List.length_cons] at hlE1
        omega
      refine ⟨⟨⟨old ++ d1 ++ oldest :: d2, ?_, ?_⟩, ?_, ?_, ?_⟩, ?_⟩
      · rw [← hstamp, ← hreqs', hsplit2]
        simp [List.append_assoc]
      · intro h hh
        rw [← hstamp]
        exact hP h hh
      · intro h hh
        rcases List.mem_append.mp hh with hh1 | hh2
        · rw [← hstamp]; exact hbd2 h hh1
        · simp only [List.mem_singleton] at hh2
          rw [hh2]
      · rw [← hreqs', List.length_append, List.length_singleton]
        omega
      · rw [← hstamp]
        exact win_bound_step Q W wk hist (old ++ d1 ++ oldest :: d2) E2 hsplit2 hP hbd2
          hroom hwin
      · rw [← hstamp]; linarith
  · rw [if_neg hfull] at hacq
    have hacq2 : some (E1 ++ [clock + gap], clock + gap) = some (reqs', stamp) := hacq
    have hpair := Option.some.inj hacq2
    have hreqs' : E1 ++ [clock + gap] = reqs' := congrArg Prod.fst hpair
    have hstamp : clock + gap = stamp := congrArg Prod.snd hpair
    have hsplit2 : hist = (old ++ d1) ++ E1 := by
      rw [hsplit, hd1, List.append_assoc]
    have hP : ∀ h ∈ old ++ d1, h < clock + gap - W := by
      intro h hh
      rcases List.mem_append.mp hh with hh1 | hh2
      · have := hold h hh1; linarith
      · exact hd1lt h hh2
    have hbd2 : ∀ h ∈ hist, h ≤ clock + gap := fun h hh => le_trans (hbd h hh) (by linarith)
    refine ⟨⟨⟨old ++ d1, ?_, ?_⟩, ?_, ?_, ?_⟩, ?_⟩
    · rw [← hstamp, ← hreqs', hsplit2]
      simp [List.append_assoc]
    · intro h hh
      rw [← hstamp]
      exact hP h hh
    · intro h hh
      rcases List.mem_append.mp hh with hh1 | hh2
      · rw [← hstamp]; exact hbd2 h hh1
      · simp only [List.mem_singleton] at hh2
        rw [hh2]
    · rw [← hreqs', List.length_append, List.length_singleton]
      omega
    · rw [← hstamp]
      exact win_bound_step Q W (clock + gap) hist (old ++ d1) E1 hsplit2 hP hbd2
        (by omega) hwin
    · rw [← hstamp]; linarith

/-- A run started in a good state keeps every sliding window within quota. -/
theorem rlRun_good (Q : Nat) (W : ℚ) :
    ∀ (steps : List (ℚ × ℚ)) (clock : ℚ) (reqs hist : List ℚ),
      RLGood Q W clock reqs hist →
      (∀ p ∈ steps, 0 ≤ p.1 ∧ 0 ≤ p.2) →
      ∀ reqsF histF, rlRun Q W clock reqs hist steps = some (reqsF, histF) →
        ∀ t, countWin W histF t ≤ Q := by
  intro steps
  induction steps with
  | nil =>
    intro clock reqs hist hg _ reqsF histF hrun t
    simp only [rlRun, Option.some.injEq, Prod.mk.injEq] at hrun
    rw [← hrun.2]
    exact hg.2.2.2 t
  | cons p steps ih =>
    intro clock reqs hist hg hstep reqsF histF hrun t
    obtain ⟨gap, slack⟩ := p
    simp only [rlRun] at hrun
    rcases hacq : acquire Q W reqs (clock + gap) slack with _ | ⟨reqs', stamp⟩
    · rw [hacq] at hrun; simp at hrun
    · rw [hacq] at hrun
      have hstep0 := hstep (gap, slack) (List.mem_cons_self _ _)
      obtain ⟨hg', _⟩ :=
        acquire_good Q W clock gap slack reqs hist reqs' stamp hg hstep0.1 hstep0.2 hacq
      exact ih stamp reqs' (hist ++ [stamp]) hg'
        (fun q hq => hstep q (List.mem_cons_of_mem _ hq)) reqsF histF hrun t

/-- C1. For every sequence of acquire calls on a limiter configured for
    maxRequests Q and time_window W, started with an empty deque, every
    sliding window of length W of real elapsed time contains at most Q of the
    recorded request timestamps, at every observation instant t. -/
theorem rateLimiter_sliding_window (Q : Nat) (W t0 : ℚ) (steps : List (ℚ × ℚ))
    (hsteps : ∀ p ∈ steps, 0 ≤ p.1 ∧ 0 ≤ p.2)
    (reqsF histF : List ℚ)
    (hrun : rlRun Q W t0 [] [] steps = some (reqsF, histF)) (t : ℚ) :
    countWin W histF t ≤ Q :=
  rlRun_good Q W steps t0 [] []
    ⟨⟨[], rfl, by simp⟩, by simp, by simp, fun u => by simp [countWin]⟩
    hsteps reqsF histF hrun t

/-- C1 witness: three back-to-back acquires on a quota of 2 per 30 seconds
    record instants 0, 0 and 30.1, and the window ending at 30.1 holds only
    one of them. -/
theorem rateLimiter_sliding_window_witness :
    countWin 30 [0, 0, 301 / 10] (301 / 10) ≤ 2 :=
  rateLimiter_sliding_window 2 30 0 [(0, 0), (0, 0), (0, 0)] (by norm_num)
    [301 / 10] [0, 0, 301 / 10] (by norm_num [rlRun, acquire, evictOld]) (301 / 10)

/-! ## Percent-change lemmas (claim C2) -/

/-- Insertion grows the frame by one row. -/
theorem insertRow_length (r : RawRow) (l : List RawRow) :
    (insertRow r l).length = l.length + 1 := by
  induction l with
  | nil => rfl
  | cons x xs ih => by_cases h : r.date < x.date <;> simp [insertRow, h, ih]

/-- Sorting preserves the number of rows. -/
theorem sortRows_length (l : List RawRow) : (sortRows l).length = l.length := by
  induction l with
  | nil => rfl
  | cons x xs ih => simp [sortRows, insertRow_length, ih]

/-- The pct_chg column has one cell per row. -/
theorem pctColumn_length : ∀ (cs : List ℚ) (pv : FVal), (pctColumn pv cs).length = cs.length
  | [], _ => rfl
  | c :: cs, pv => by simp [pctColumn, pctColumn_length cs (FVal.num c)]

/-- Cell i of the pct_chg column is the shift-and-divide formula applied to
    close i and its predecessor (the seed value for the first cell). -/
theorem pctColumn_getD : ∀ (cs : List ℚ) (pv : FVal) (i : Nat), i < cs.length →
    (pctColumn pv cs).getD i FVal.nan =
      pctOf (if i = 0 then pv else FVal.num (cs.getD (i - 1) 0)) (cs.getD i 0)
  | [], _, i, h => by simp at h
  | c :: cs, pv, 0, _ => by simp [pctColumn]
  | c :: cs, pv, i + 1, h => by
    have ih := pctColumn_getD cs (FVal.num c) i (by simpa using h)
    simp only [pctColumn, List.getD_cons_succ]
    rw [ih]
    congr 1
    by_cases hi : i = 0
    · subst hi; simp
    · rcases Nat.exists_eq_succ_of_ne_zero hi with ⟨j, rfl⟩
      simp

/-- Reading the close column through map. -/
theorem close_getD (l : List RawRow) (i : Nat) (h : i < l.length) :
    (l.map RawRow.close).getD i 0 = (l.getD i default).close := by
  rw [List.getD_eq_getElem _ _ (by simpa using h), List.getD_eq_getElem _ _ h,
    List.getElem_map]

/-- C2. On every series of at least two rows, _normalize_data emits one
    pct_chg cell per row; the first cell of the date-sorted series is NaN
    (null); cell i is round((close i - close (i-1)) / close (i-1) * 100, 2)
    whenever the previous close is nonzero; when the previous close is zero
    the computation still returns (the embedding is total, mirroring pandas,
    which emits a non-finite cell instead of raising) and the cell is never a
    finite number; and the helper prev_close column is absent from the
    returned frame for every input column set. -/
theorem normalize_pct_chg (rows : List RawRow) (h2 : 2 ≤ rows.length) :
    (normalizeData rows).length = rows.length ∧
    (normalizeData rows).getD 0 FVal.nan = FVal.nan ∧
    (∀ i, 1 ≤ i → i < rows.length →
      ((((sortRows rows).getD (i - 1) default).close ≠ 0 →
        (normalizeData rows).getD i FVal.nan =
          FVal.num (round2 ((((sortRows rows).getD i default).close -
            ((sortRows rows).getD (i - 1) default).close) /
            ((sortRows rows).getD (i - 1) default).close * 100))) ∧
      ((((sortRows rows).getD (i - 1) default).close = 0 →
        ∀ q : ℚ, (normalizeData rows).getD i FVal.nan ≠ FVal.num q)))) ∧
    (∀ cols, "prev_close" ∉ normalizeCols cols) := by
  have hlen : ((sortRows rows).map RawRow.close).length = rows.length := by
    rw [List.length_map, sortRows_length]
  refine ⟨?_, ?_, ?_, ?_⟩
  · rw [normalizeData, pctColumn_length, hlen]
  · rw [normalizeData, pctColumn_getD _ _ 0 (by omega)]
    rfl
  · intro i h1 hi
    have hget := pctColumn_getD ((sortRows rows).map RawRow.close) FVal.nan i (by omega)
    rw [if_neg (by omega)] at hget
    have hprev := close_getD (sortRows rows) (i - 1) (by rw [sortRows_length]; omega)
    have hcur := close_getD (sortRows rows) i (by rw [sortRows_length]; omega)
    rw [hprev, hcur] at hget
    constructor
    · intro hne
      rw [normalizeData, hget]
      simp only [pctOf, FVal.sub, FVal.div, FVal.mulQ, FVal.roundTo2, if_neg hne]
    · intro hzero q
      rw [normalizeData, hget, hzero]
      generalize ((sortRows rows).getD i default).close = c
      rcases lt_trichotomy c 0 with hc | hc | hc
      · simp [pctOf, FVal.sub, FVal.div, FVal.mulQ, FVal.roundTo2, hc, not_lt.mpr hc.le,
          show (0 : ℚ) < 100 from by norm_num]
      · simp [pctOf, FVal.sub, FVal.div, FVal.mulQ, FVal.roundTo2, hc]
      · simp [pctOf, FVal.sub, FVal.div, FVal.mulQ, FVal.roundTo2, hc, not_lt.mpr hc.le,
          show (0 : ℚ) < 100 from by norm_num]
  · intro cols hmem
    have hbase := (List.mem_filter.mp hmem).1
    revert hbase
    decide

/-- C2 witness: on the two-day series with closes 10 then 12, the second
    pct_chg cell equals 20 percent, by the main theorem at this input. -/
theorem normalize_pct_chg_witness :
    (normalizeData [⟨0, 1, 1, 1, 10, 1, 1⟩, ⟨1, 1, 1, 1, 12, 1, 1⟩]).getD 1 FVal.nan =
      FVal.num 20 := by
  have hsort : sortRows [⟨0, 1, 1, 1, 10, 1, 1⟩, ⟨1, 1, 1, 1, 12, 1, 1⟩] =
      [⟨0, 1, 1, 1, 10, 1, 1⟩, ⟨1, 1, 1, 1, 12, 1, 1⟩] := by
    norm_num [sortRows, insertRow]
  have h := ((normalize_pct_chg [⟨0, 1, 1, 1, 10, 1, 1⟩, ⟨1, 1, 1, 1, 12, 1, 1⟩]
    (by norm_num)).2.2.1 1 (by norm_num) (by norm_num)).1
  rw [hsort] at h
  simp only [List.getD_cons_succ, List.getD_cons_zero] at h
  rw [h (by norm_num)]
  norm_num [round2, roundHalfEven]

/-! ## Retry pipeline theorems (claims C3 and C4) -/

/-- C3. The classification inside the fetch body runs before tenacity sees the
    exception: a quota-keyword upstream failure is reraised as RateLimitError
    and not retried (one attempt, no backoff waits), as the claim states; but
    an upstream ConnectionError is also swallowed by the same except-block and
    rewrapped as a generic DataFetchError, so the decorator, which would retry
    a raw ConnectionError or TimeoutError (third and fourth conjuncts, with
    waits clamped into [2, 30]), never fires for it: one attempt, no waits,
    where the claim promises up to 3 attempts with backoff. -/
theorem retry_policy_on_upstream_errors :
    fetchRawData true true
        (fun _ => .error (.openApiError (str2cp "request quota exceeded"))) =
      (⟨.error (.rateLimitError (str2cp "Longbridge 速率限制: " ++
          str2cp "request quota exceeded")), true, true⟩, 1, []) ∧
    fetchRawData true true
        (fun _ => .error (.connectionError (str2cp "Connection reset by peer"))) =
      (⟨.error (.dataFetchError (str2cp "Longbridge 获取数据失败: " ++
          str2cp "Connection reset by peer")), true, true⟩, 1, []) ∧
    tenacityRetryable (.connectionError (str2cp "Connection reset by peer")) = true ∧
    tenacityRetryable (.dataFetchError (str2cp "Longbridge 获取数据失败: ")) = false ∧
    waitExp 1 = 2 ∧ waitExp 2 = 2 ∧ waitExp 9 = 30 := by
  refine ⟨rfl, rfl, rfl, rfl, ?_, ?_, ?_⟩ <;> norm_num [waitExp]

/-- C4. With any incomplete credential set (each of the three values resolving
    config-or-environment, with empty strings falsy), _init_api leaves the
    handle uninitialized; every _fetch_raw_data call then raises the
    configuration DataFetchError on its first attempt, without acquiring a
    rate permit and without calling the upstream API. -/
theorem fetch_fails_fast_without_credentials
    (ck cs ct ek es et : Option (List Nat)) (sdkOk : Bool)
    (hmiss : pyTruthyOpt (pyOr ck ek) = false ∨ pyTruthyOpt (pyOr cs es) = false ∨
      pyTruthyOpt (pyOr ct et) = false) :
    initApi ck cs ct ek es et sdkOk = false ∧
    ∀ (datesValid : Bool) (upstream : Nat → Except Exc (List Candle)),
      fetchRawData (initApi ck cs ct ek es et sdkOk) datesValid upstream =
        (⟨.error (.dataFetchError (str2cp "Longbridge API 未初始化，请检查配置")),
          false, false⟩, 1, []) := by
  have hinit : initApi ck cs ct ek es et sdkOk = false := by
    unfold initApi
    rcases hmiss with h | h | h <;> simp [h]
  refine ⟨hinit, fun datesValid upstream => ?_⟩
  rw [hinit]
  rfl

/-- C4 witness: with no credentials at all, the fetch fails fast with the
    configuration error, no permit and no upstream call. -/
theorem fetch_fails_fast_witness :
    fetchRawData (initApi none none none none none none true) true (fun _ => .ok []) =
      (⟨.error (.dataFetchError (str2cp "Longbridge API 未初始化，请检查配置")),
        false, false⟩, 1, []) :=
  (fetch_fails_fast_without_credentials none none none none none none true
    (Or.inl rfl)).2 true (fun _ => .ok [])

/-! ## Scraper cleanup theorems (claim C5) -/

/-- C5 counterexample. When attaching to the browser succeeds but creating the
    new context raises, connect() returns False and get_industry_sectors
    returns early without any cleanup call: the browser connection stays open
    on this error exit path, against the always-release claim. -/
theorem scraper_leak_counterexample :
    ((getIndustrySectors ⟨none, true, false, true, false, [], false, false, false⟩).2.1).browserOpen
      = true := rfl

/-- C5 amended. On every run in which connect() fully succeeds, the
    try/finally guarantees close() on every exit path (success, early loop
    termination, a goto or extraction raise), and when no close sub-call
    itself raises, page, context and connection are all released; runs served
    from cache never open them. -/
theorem scraper_cleanup_after_connect (env : ChromeEnv)
    (hattach : env.attachOk = true) (hctx : env.ctxOk = true) (hpage : env.pageOk = true)
    (hpc : env.pageCloseThrows = false) (hcc : env.ctxCloseThrows = false)
    (hbc : env.browserCloseThrows = false) :
    (getIndustrySectors env).2.1 = ⟨false, false, false⟩ := by
  rcases env with ⟨cache, a, c, p, g, st, p1, c1, b1⟩
  simp only at hattach hctx hpage hpc hcc hbc
  subst hattach hctx hpage hpc hcc hbc
  cases cache with
  | none => simp [getIndustrySectors, connectChrome, closeChrome]
  | some d =>
    by_cases hd : d.isEmpty <;>
      simp [getIndustrySectors, connectChrome, closeChrome, hd]

/-- C5 witness: a run whose first extraction raises still ends with all three
    resources released. -/
theorem scraper_cleanup_witness :
    (getIndustrySectors ⟨none, true, true, true, false, [PageStep.raises],
      false, false, false⟩).2.1 = ⟨false, false, false⟩ :=
  scraper_cleanup_after_connect _ rfl rfl rfl rfl rfl rfl

/-! ## Daily cache theorems (claim C9) -/

/-- C9. Writing a nonempty row set and reading back on the same calendar date
    returns exactly the written rows with the file intact; reading on any
    other date is a cache miss that leaves the stale file in place. -/
theorem cache_roundtrip (fs : Option CacheFile) (today ts later : String)
    (rows : List SRow) (hne : rows ≠ []) (hlater : later ≠ today) :
    getCachedData (saveCachedData fs today ts rows true) today true =
      (some rows, saveCachedData fs today ts rows true) ∧
    getCachedData (saveCachedData fs today ts rows true) later true =
      (none, saveCachedData fs today ts rows true) := by
  have hsave : saveCachedData fs today ts rows true = some ⟨today, ts, rows⟩ := rfl
  rw [hsave]
  refine ⟨by simp [getCachedData], ?_⟩
  have hread : getCachedData (some ⟨today, ts, rows⟩) later true =
      if today = later then (some rows, some ⟨today, ts, rows⟩)
      else (none, some ⟨today, ts, rows⟩) := by
    simp [getCachedData]
  rw [hread, if_neg (fun h => hlater h.symm)]

/-- C9 witness: a one-row cache written on 2026-10-12 reads back that day and
    misses (without deletion) on 2026-10-13. -/
theorem cache_roundtrip_witness :
    getCachedData (saveCachedData none "2026-10-12" "2026-10-12T09:30:00" [⟨"银行", 1, 2, 3, 4, "20/5", "工商银行", 5⟩] true) "2026-10-12" true =
      (some [⟨"银行", 1, 2, 3, 4, "20/5", "工商银行", 5⟩],
        saveCachedData none "2026-10-12" "2026-10-12T09:30:00" [⟨"银行", 1, 2, 3, 4, "20/5", "工商银行", 5⟩] true) ∧
    getCachedData (saveCachedData none "2026-10-12" "2026-10-12T09:30:00" [⟨"银行", 1, 2, 3, 4, "20/5", "工商银行", 5⟩] true) "2026-10-13" true =
      (none,
        saveCachedData none "2026-10-12" "2026-10-12T09:30:00" [⟨"银行", 1, 2, 3, 4, "20/5", "工商银行", 5⟩] true) :=
  cache_roundtrip none "2026-10-12" "2026-10-12T09:30:00" "2026-10-13"
    [⟨"银行", 1, 2, 3, 4, "20/5", "工商银行", 5⟩] (by decide) (by decide)

/-! ## Watchlist theorems (claim C8) -/

/-- C8 counterexample. A watchlist lookup that succeeds and resolves a group
    with no member securities returns the empty list: the operation does not
    fail with DataFetchError as the claim states. -/
theorem watchlist_empty_group_counterexample :
    getWatchlistFromGroup true (.ok [⟨1, str2cp "all", []⟩]) (some (str2cp "all")) none =
      .ok [] := rfl

/-- C8 amended. A resolved group with no member securities makes
    get_watchlist_from_group return an empty list (not an error), while a
    watchlist() failure whose message carries neither quota nor permission
    keywords raises DataFetchError wrapping the original message. -/
theorem watchlist_empty_and_failure_behavior
    (resp : List WGroup) (n : List Nat) (g : WGroup)
    (hn : n ≠ []) (hfind : resp.find? (fun g => decide (g.name = n)) = some g)
    (hempty : g.securities = []) (hresp : resp ≠ []) :
    getWatchlistFromGroup true (.ok resp) (some n) none = .ok [] ∧
    ∀ e : Exc, containsAnyKW (pyLower e.msg) quotaKeywords = false →
      containsAnyKW (pyLower e.msg) permKeywords = false →
      ∀ (gname : Option (List Nat)) (gid : Option ℤ),
        getWatchlistFromGroup true (.error e) gname gid =
          .error (.dataFetchError (str2cp "获取长桥自选股分组失败: " ++ e.msg)) := by
  constructor
  · unfold getWatchlistFromGroup watchlistBody
    simp [hresp, hn, hfind, hempty, List.length_eq_zero]
  · intro e hq hp gname gid
    unfold getWatchlistFromGroup classifyWatchlistError
    simp [hq, hp]

/-- C8 witness: the empty group all yields an empty list, and a plain upstream
    failure yields the wrapping DataFetchError. -/
theorem watchlist_behavior_witness :
    getWatchlistFromGroup true (.ok [⟨1, str2cp "all", []⟩]) (some (str2cp "all")) none =
      .ok [] ∧
    getWatchlistFromGroup true (.error (.openApiError (str2cp "boom"))) none none =
      .error (.dataFetchError (str2cp "获取长桥自选股分组失败: " ++ str2cp "boom")) :=
  ⟨(watchlist_empty_and_failure_behavior [⟨1, str2cp "all", []⟩] (str2cp "all")
      ⟨1, str2cp "all", []⟩ (by decide) (by decide) rfl (by decide)).1,
    (watchlist_empty_and_failure_behavior [⟨1, str2cp "all", []⟩] (str2cp "all")
      ⟨1, str2cp "all", []⟩ (by decide) (by decide) rfl (by decide)).2
      (.openApiError (str2cp "boom")) (by decide) (by decide) none none⟩

/-! ## Realtime quote theorems (claim C10) -/

/-- C10. Neither realtime operation ever surfaces an exception: with no API
    handle both return None; with no mainland symbol left after filtering the
    batch operation returns None; when the batched quote() calls or the single
    calc_indexes() call fail the catch-all except returns None; and on upstream
    success both return the parsed dict. -/
theorem realtime_quotes_never_raise :
    (∀ quoteApi symbols, getRealtimeQuoteBatch false quoteApi symbols = none) ∧
    (∀ quoteApi symbols, (symbols.map convertStockCode).filter isMainland = [] →
      getRealtimeQuoteBatch true quoteApi symbols = none) ∧
    (∀ quoteApi symbols e,
      runQuoteBatches quoteApi
        (chunksOf 500 ((symbols.map convertStockCode).filter isMainland)) [] = .error e →
      getRealtimeQuoteBatch true quoteApi symbols = none) ∧
    (∀ quoteApi symbols d,
      runQuoteBatches quoteApi
        (chunksOf 500 ((symbols.map convertStockCode).filter isMainland)) [] = .ok d →
      (symbols.map convertStockCode).filter isMainland ≠ [] →
      getRealtimeQuoteBatch true quoteApi symbols = some d) ∧
    (∀ calcApi symbols, getRealtimeQuoteWithIndexes false calcApi symbols = none) ∧
    (∀ calcApi symbols e, calcApi (symbols.map convertStockCode) = .error e →
      getRealtimeQuoteWithIndexes true calcApi symbols = none) ∧
    (∀ calcApi symbols qs, calcApi (symbols.map convertStockCode) = .ok qs →
      getRealtimeQuoteWithIndexes true calcApi symbols =
        some (qs.foldl (fun d q => dictInsertC d q.symbol (mkCalcRow q)) [])) := by
  refine ⟨fun qa sy => rfl, fun qa sy h => ?_, fun qa sy e h => ?_, fun qa sy d h hne => ?_,
    fun ca sy => rfl, fun ca sy e h => ?_, fun ca sy qs h => ?_⟩
  · simp [getRealtimeQuoteBatch, h]
  · by_cases hemp : ((sy.map convertStockCode).filter isMainland).isEmpty <;>
      simp [getRealtimeQuoteBatch, hemp, h]
  · have hemp : ¬((sy.map convertStockCode).filter isMainland).isEmpty := by
      simpa [List.isEmpty_iff] using hne
    simp [getRealtimeQuoteBatch, hemp, h]
  · simp [getRealtimeQuoteWithIndexes, h]
  · simp [getRealtimeQuoteWithIndexes, h]

/-- C10 witness: a lone Hong Kong code filters out and yields None from the
    batch operation, and an upstream calc_indexes failure yields None from the
    indicator operation. -/
theorem realtime_quotes_witness :
    getRealtimeQuoteBatch true (fun _ => .ok []) [str2cp "700"] = none ∧
    getRealtimeQuoteWithIndexes true (fun _ => .error (.openApiError (str2cp "boom")))
      [str2cp "600519"] = none :=
  ⟨realtime_quotes_never_raise.2.1 (fun _ => .ok []) [str2cp "700"] (by decide),
    realtime_quotes_never_raise.2.2.2.2.2.1 (fun _ => .error (.openApiError (str2cp "boom")))
      [str2cp "600519"] (.openApiError (str2cp "boom")) rfl⟩

/-- C6 witness: the refinement instantiated on a concrete Hong Kong code. -/
theorem convert_rules_refined_witness :
    specConvertStockCode (str2cp "9988") = convertStockCode (str2cp "9988") :=
  convert_rules_refined.1 (str2cp "9988")

/-- C7 witness: idempotence instantiated on a padded lowercase ticker. -/
theorem convertStockCode_idempotent_witness :
    convertStockCode (convertStockCode (str2cp " aapl ")) =
      convertStockCode (str2cp " aapl ") :=
  convertStockCode_idempotent (str2cp " aapl ")
